import Mathlib

/-!
Verification of the translation-submission resolver from
`wagtail_localize/views/submit_translations.py`.

The embedding models the persistent records touched by a submission run
(`TranslationSource` rows, `Translation` rows, the `save_target` calls) as
explicit lists inside a `DB` value, together with an ordered trace of
creation events.  Content objects are identified by their translation key
(a `Nat`); the object graph (related-object segments resolved through
`get_instance(instance.locale)`, and each object's own locale) is a `World`
value.  `TranslationCreator` state is the per-run seen set plus the database.

Page `.specific` resolution does not change an object's translation key, so
it is the identity in this model and is not represented.
-/

set_option linter.unusedVariables false

namespace SubmitTranslations

abbrev Key := Nat
abbrev LocaleId := Nat
abbrev UserId := Nat

/-- One persistent-record creation, in the order it happened. -/
inductive Ev where
  | source (key : Key)
  | task (key : Key) (locale : LocaleId)
deriving DecidableEq, Repr

/-- The persistent records visible to this view: `TranslationSource` rows
(keyed by translation key), `Translation` rows (keyed by (source, target
locale)), the `save_target(user=...)` calls that happened, and the ordered
trace of creation events. -/
structure DB where
  sources : List Key
  tasks : List (Key × LocaleId)
  saved_targets : List (Key × LocaleId × UserId)
  events : List Ev
deriving DecidableEq, Repr

def emptyDB : DB := ⟨[], [], [], []⟩

/-- The object graph supplied by the storage layer: for each translation key,
the translation keys of its related-object segments (each
`related_object_segment.object.get_instance(instance.locale)` resolved to its
translation key), and the object's own locale. -/
structure World where
  related : Key → List Key
  localeOf : Key → LocaleId

/-- `TranslationCreator` per-run state (`self.seen_objects`) together with
the database it writes to. -/
structure CState where
  seen_objects : List Key
  db : DB
deriving DecidableEq, Repr

/-- `TranslationSource.get_or_create_from_instance(instance)`: returns the
database after the call and the `created` flag. -/
def get_or_create_source (db : DB) (key : Key) : DB × Bool :=
  if key ∈ db.sources then (db, false)
  else ({ db with sources := db.sources ++ [key],
                  events := db.events ++ [Ev.source key] }, true)

/-- `Translation.objects.get_or_create(source=source, target_locale=l)`. -/
def get_or_create_translation (db : DB) (key : Key) (locale : LocaleId) :
    DB × Bool :=
  if (key, locale) ∈ db.tasks then (db, false)
  else ({ db with tasks := db.tasks ++ [(key, locale)],
                  events := db.events ++ [Ev.task key locale] }, true)

/-- `translation.save_target(user=self.user)`. -/
def save_target (db : DB) (key : Key) (locale : LocaleId) (user : UserId) : DB :=
  { db with saved_targets := db.saved_targets ++ [(key, locale, user)] }

/-- One iteration of the `for target_locale in self.target_locales` loop:
get-or-create the `Translation`, and call `save_target` exactly when the
record was newly created. -/
def translation_step (user : UserId) (db : DB) (key : Key) (locale : LocaleId) :
    DB :=
  let r := get_or_create_translation db key locale
  if r.2 then save_target r.1 key locale user else r.1

/-- The whole `for target_locale in self.target_locales` loop. -/
def add_translation_records (user : UserId) (target_locales : List LocaleId)
    (key : Key) (db : DB) : DB :=
  target_locales.foldl (fun db locale => translation_step user db key locale) db

/-- The `include_related_objects=False` instance of `create_translations`.
The recursive call in the source always passes `include_related_objects=False`,
so the recursion bottoms out after one level; this definition is that bottom
level (seen-set guard, source get-or-create, translation-record loop, and no
related-object expansion). -/
def create_translations_norel (user : UserId) (w : World)
    (target_locales : List LocaleId) (inst : Key) (st : CState) : CState :=
  if inst ∈ st.seen_objects then st
  else
    let seen1 := inst :: st.seen_objects
    let db1 := (get_or_create_source st.db inst).1
    { seen_objects := seen1,
      db := add_translation_records user target_locales inst db1 }

/-- The `for related_object_segment in source.relatedobjectsegment_set.all()`
loop: each related instance is submitted with `include_related_objects=False`. -/
def add_related_objects (user : UserId) (w : World)
    (target_locales : List LocaleId) (rl : List Key) (st : CState) : CState :=
  rl.foldl (fun acc rk => create_translations_norel user w target_locales rk acc)
    st

/-- `TranslationCreator.create_translations(instance, include_related_objects)`:
seen-set guard, add to seen set, get-or-create the source, optionally expand
related objects one level (each with `include_related_objects=False`), then
create the translation records for the current object. -/
def create_translations (user : UserId) (w : World)
    (target_locales : List LocaleId) (inst : Key)
    (include_related_objects : Bool) (st : CState) : CState :=
  if inst ∈ st.seen_objects then st
  else
    let seen1 := inst :: st.seen_objects
    let db1 := (get_or_create_source st.db inst).1
    let st2 : CState := ⟨seen1, db1⟩
    let st3 :=
      if include_related_objects then
        add_related_objects user w target_locales (w.related inst) st2
      else st2
    { st3 with db := add_translation_records user target_locales inst st3.db }

/-- `SubmitTranslationForm`'s locale field queryset:
`Locale.objects.exclude(id=instance.locale_id)`. -/
def form_locale_choices (all_locales : List LocaleId)
    (instance_locale : LocaleId) : List LocaleId :=
  all_locales.filter (fun l => l ≠ instance_locale)

/-- The page hierarchy under a page-like object. -/
inductive PTree where
  | node (key : Key) (children : List PTree)

def PTree.key : PTree → Key
  | .node k _ => k

def PTree.children : PTree → List PTree
  | .node _ cs => cs

/-- The `_walk` closure in `SubmitTranslationView.post`: for each child,
submit it with related-object expansion re-enabled (the default), then, when
the child has children (`child_page.numchild`), recurse into them. -/
def walk_children (user : UserId) (w : World) (target_locales : List LocaleId) :
    List PTree → CState → CState
  | [], st => st
  | PTree.node k cs :: rest, st =>
      let st1 := create_translations user w target_locales k true st
      let st2 := if cs.length ≠ 0 then
          walk_children user w target_locales cs st1
        else st1
      walk_children user w target_locales rest st2

/-- The body of `SubmitTranslationView.post` inside `transaction.atomic()`:
submit the root, then walk its subtree when the object is a page
(`subtree = some t`) and the form asked for the subtree. -/
def run_submit (user : UserId) (w : World) (target_locales : List LocaleId)
    (root : Key) (subtree : Option PTree) (include_subtree : Bool) (db0 : DB) :
    CState :=
  let st := create_translations user w target_locales root true ⟨[], db0⟩
  match subtree, include_subtree with
  | some t, true => walk_children user w target_locales t.children st
  | _, _ => st

/-! ### Failure-injected model

The spec's atomicity property is about storage failures during the run.
`FaultSpec` injects a failure into individual `TranslationSource` /
`Translation` creations; the run is re-expressed in `Except Unit`, threading
the same state, and `submit_post` wraps the run in the `transaction.atomic()`
semantics of `SubmitTranslationView.post`: an exception anywhere rolls the
database back to its pre-run contents. -/

structure FaultSpec where
  failSource : Key → Bool
  failTask : Key → LocaleId → Bool

def get_or_create_sourceE (f : FaultSpec) (db : DB) (key : Key) :
    Except Unit (DB × Bool) :=
  if f.failSource key then .error () else .ok (get_or_create_source db key)

def translation_stepE (f : FaultSpec) (user : UserId) (db : DB) (key : Key)
    (locale : LocaleId) : Except Unit DB :=
  if f.failTask key locale then .error ()
  else .ok (translation_step user db key locale)

def add_translation_recordsE (f : FaultSpec) (user : UserId) :
    List LocaleId → Key → DB → Except Unit DB
  | [], _, db => .ok db
  | l :: rest, key, db => do
      let db1 ← translation_stepE f user db key l
      add_translation_recordsE f user rest key db1

def create_translations_norelE (f : FaultSpec) (user : UserId) (w : World)
    (target_locales : List LocaleId) (inst : Key) (st : CState) :
    Except Unit CState :=
  if inst ∈ st.seen_objects then .ok st
  else do
    let seen1 := inst :: st.seen_objects
    let r ← get_or_create_sourceE f st.db inst
    let db2 ← add_translation_recordsE f user target_locales inst r.1
    return ⟨seen1, db2⟩

def add_related_objectsE (f : FaultSpec) (user : UserId) (w : World)
    (target_locales : List LocaleId) : List Key → CState → Except Unit CState
  | [], st => .ok st
  | rk :: rest, st => do
      let st1 ← create_translations_norelE f user w target_locales rk st
      add_related_objectsE f user w target_locales rest st1

def create_translationsE (f : FaultSpec) (user : UserId) (w : World)
    (target_locales : List LocaleId) (inst : Key)
    (include_related_objects : Bool) (st : CState) : Except Unit CState :=
  if inst ∈ st.seen_objects then .ok st
  else do
    let seen1 := inst :: st.seen_objects
    let r ← get_or_create_sourceE f st.db inst
    let st2 : CState := ⟨seen1, r.1⟩
    let st3 ←
      if include_related_objects then
        add_related_objectsE f user w target_locales (w.related inst) st2
      else pure st2
    let db4 ← add_translation_recordsE f user target_locales inst st3.db
    return ⟨st3.seen_objects, db4⟩

def walk_childrenE (f : FaultSpec) (user : UserId) (w : World)
    (target_locales : List LocaleId) : List PTree → CState → Except Unit CState
  | [], st => .ok st
  | PTree.node k cs :: rest, st => do
      let st1 ← create_translationsE f user w target_locales k true st
      let st2 ←
        if cs.length ≠ 0 then walk_childrenE f user w target_locales cs st1
        else pure st1
      walk_childrenE f user w target_locales rest st2

def run_submitE (f : FaultSpec) (user : UserId) (w : World)
    (target_locales : List LocaleId) (root : Key) (subtree : Option PTree)
    (include_subtree : Bool) (db0 : DB) : Except Unit CState := do
  let st ← create_translationsE f user w target_locales root true ⟨[], db0⟩
  match subtree, include_subtree with
  | some t, true => walk_childrenE f user w target_locales t.children st
  | _, _ => .ok st

/-- `SubmitTranslationView.post` with `transaction.atomic()`: a failure
anywhere in the run leaves the database exactly as it was. -/
def submit_post (f : FaultSpec) (user : UserId) (w : World)
    (target_locales : List LocaleId) (root : Key) (subtree : Option PTree)
    (include_subtree : Bool) (db0 : DB) : DB :=
  match run_submitE f user w target_locales root subtree include_subtree db0 with
  | .ok st => st.db
  | .error _ => db0

/-- Database growth across a fragment of a run, phrased for the one-time
initialization invariant: the task list grows by a batch of pairs none of
which was present before, and the `save_target` call list grows by exactly
that batch, tagged with the submitting user. -/
def Grow (u : UserId) (db db' : DB) : Prop :=
  ∃ new, db'.tasks = db.tasks ++ new ∧
    db'.saved_targets = db.saved_targets ++ new.map (fun p => (p.1, p.2, u)) ∧
    ∀ p ∈ new, p ∉ db.tasks

/-! Concrete object graphs used to instantiate the general theorems. -/

/-- Two objects that are each other's related object. -/
def wCyc : World :=
  ⟨fun k => if k = 0 then [1] else if k = 1 then [0] else [], fun _ => 0⟩

/-- A two-hop dependency chain 0 → 1 → 2. -/
def wChain : World :=
  ⟨fun k => if k = 0 then [1] else if k = 1 then [2] else [], fun _ => 0⟩

/-- No related objects; every object lives in locale 5. -/
def wFlat : World := ⟨fun _ => [], fun _ => 5⟩

/-- A fault specification that never fails. -/
def noFaults : FaultSpec := ⟨fun _ => false, fun _ _ => false⟩

/-! ### Lemmas about the primitive repository steps -/

theorem gocS_sources_mem (db : DB) (k x : Key) :
    x ∈ ((get_or_create_source db k).1).sources ↔ x ∈ db.sources ∨ x = k := by
  unfold get_or_create_source
  split
  · rename_i h
    constructor
    · exact Or.inl
    · rintro (hx | rfl)
      · exact hx
      · exact h
  · simp [List.mem_append]

theorem gocS_sources_eq (db : DB) (k : Key) :
    ((get_or_create_source db k).1).sources =
      if k ∈ db.sources then db.sources else db.sources ++ [k] := by
  unfold get_or_create_source
  split <;> simp_all

theorem gocS_self (db : DB) (k : Key) :
    k ∈ ((get_or_create_source db k).1).sources :=
  (gocS_sources_mem db k k).2 (Or.inr rfl)

theorem gocS_tasks (db : DB) (k : Key) :
    ((get_or_create_source db k).1).tasks = db.tasks := by
  unfold get_or_create_source
  split <;> rfl

theorem gocS_saved (db : DB) (k : Key) :
    ((get_or_create_source db k).1).saved_targets = db.saved_targets := by
  unfold get_or_create_source
  split <;> rfl

theorem gocS_events (db : DB) (k : Key) :
    ((get_or_create_source db k).1).events =
      db.events ++ if k ∈ db.sources then [] else [Ev.source k] := by
  unfold get_or_create_source
  split <;> simp_all

theorem gocS_skip (db : DB) (k : Key) (h : k ∈ db.sources) :
    (get_or_create_source db k).1 = db := by
  unfold get_or_create_source
  simp [h]

theorem gocS_nodup (db : DB) (k : Key) (h : db.sources.Nodup) :
    ((get_or_create_source db k).1).sources.Nodup := by
  unfold get_or_create_source
  split
  · exact h
  · rename_i hk
    simpa [List.nodup_append, h] using hk

theorem ts_sources (u : UserId) (db : DB) (k : Key) (l : LocaleId) :
    (translation_step u db k l).sources = db.sources := by
  by_cases h : (k, l) ∈ db.tasks <;>
    simp [translation_step, get_or_create_translation, save_target, h]

theorem ts_tasks (u : UserId) (db : DB) (k : Key) (l : LocaleId) :
    (translation_step u db k l).tasks =
      db.tasks ++ if (k, l) ∈ db.tasks then [] else [(k, l)] := by
  by_cases h : (k, l) ∈ db.tasks <;>
    simp [translation_step, get_or_create_translation, save_target, h]

theorem ts_saved (u : UserId) (db : DB) (k : Key) (l : LocaleId) :
    (translation_step u db k l).saved_targets =
      db.saved_targets ++ if (k, l) ∈ db.tasks then [] else [(k, l, u)] := by
  by_cases h : (k, l) ∈ db.tasks <;>
    simp [translation_step, get_or_create_translation, save_target, h]

theorem ts_events (u : UserId) (db : DB) (k : Key) (l : LocaleId) :
    (translation_step u db k l).events =
      db.events ++ if (k, l) ∈ db.tasks then [] else [Ev.task k l] := by
  by_cases h : (k, l) ∈ db.tasks <;>
    simp [translation_step, get_or_create_translation, save_target, h]

theorem ts_skip (u : UserId) (db : DB) (k : Key) (l : LocaleId)
    (h : (k, l) ∈ db.tasks) : translation_step u db k l = db := by
  simp [translation_step, get_or_create_translation, h]

theorem ts_tasks_mem (u : UserId) (db : DB) (k : Key) (l : LocaleId)
    (p : Key × LocaleId) :
    p ∈ (translation_step u db k l).tasks ↔ p ∈ db.tasks ∨ p = (k, l) := by
  rw [ts_tasks]
  by_cases h : (k, l) ∈ db.tasks
  · simp only [h, if_true, List.append_nil]
    constructor
    · exact Or.inl
    · rintro (hp | rfl)
      · exact hp
      · exact h
  · simp [h, List.mem_append]

theorem ts_nodup_tasks (u : UserId) (db : DB) (k : Key) (l : LocaleId)
    (h : db.tasks.Nodup) : (translation_step u db k l).tasks.Nodup := by
  rw [ts_tasks]
  by_cases hm : (k, l) ∈ db.tasks
  · simpa [hm] using h
  · simp [hm, List.nodup_append, h]

/-! ### Lemmas about the translation-record loop -/

theorem atr_nil (u : UserId) (k : Key) (db : DB) :
    add_translation_records u [] k db = db := rfl

theorem atr_cons (u : UserId) (l : LocaleId) (rest : List LocaleId) (k : Key)
    (db : DB) :
    add_translation_records u (l :: rest) k db =
      add_translation_records u rest k (translation_step u db k l) := rfl

theorem atr_sources (u : UserId) (L : List LocaleId) (k : Key) (db : DB) :
    (add_translation_records u L k db).sources = db.sources := by
  induction L generalizing db with
  | nil => rfl
  | cons l rest ih => rw [atr_cons, ih, ts_sources]

theorem atr_tasks_mem (u : UserId) (L : List LocaleId) (k : Key) (db : DB)
    (x : Key) (l' : LocaleId) :
    (x, l') ∈ (add_translation_records u L k db).tasks ↔
      (x, l') ∈ db.tasks ∨ (x = k ∧ l' ∈ L) := by
  induction L generalizing db with
  | nil => simp [atr_nil]
  | cons l rest ih =>
      rw [atr_cons, ih, ts_tasks_mem]
      simp only [Prod.mk.injEq, List.mem_cons]
      tauto

theorem atr_mem_self (u : UserId) (L : List LocaleId) (k : Key) (db : DB)
    (l : LocaleId) (hl : l ∈ L) :
    (k, l) ∈ (add_translation_records u L k db).tasks :=
  (atr_tasks_mem u L k db k l).2 (Or.inr ⟨rfl, hl⟩)

theorem atr_tasks_sub (u : UserId) (L : List LocaleId) (k : Key) (db : DB)
    (p : Key × LocaleId) (hp : p ∈ db.tasks) :
    p ∈ (add_translation_records u L k db).tasks :=
  (atr_tasks_mem u L k db p.1 p.2).2 (Or.inl hp)

theorem atr_skip (u : UserId) (L : List LocaleId) (k : Key) (db : DB)
    (h : ∀ l ∈ L, (k, l) ∈ db.tasks) : add_translation_records u L k db = db := by
  induction L with
  | nil => rfl
  | cons l rest ih =>
      rw [atr_cons, ts_skip u db k l (h l (List.mem_cons_self l rest))]
      exact ih fun l' hl' => h l' (List.mem_cons_of_mem l hl')

theorem atr_events (u : UserId) (L : List LocaleId) (k : Key) (db : DB) :
    ∃ new, (add_translation_records u L k db).events = db.events ++ new ∧
      ∀ e ∈ new, ∃ l, l ∈ L ∧ e = Ev.task k l := by
  induction L generalizing db with
  | nil => exact ⟨[], by simp [atr_nil]⟩
  | cons l rest ih =>
      obtain ⟨new, hev, hmem⟩ := ih (translation_step u db k l)
      refine ⟨(if (k, l) ∈ db.tasks then [] else [Ev.task k l]) ++ new, ?_, ?_⟩
      · rw [atr_cons, hev, ts_events, List.append_assoc]
      · intro e he
        rcases List.mem_append.1 he with he | he
        · refine ⟨l, List.mem_cons_self l rest, ?_⟩
          by_cases hm : (k, l) ∈ db.tasks
          · simp [hm] at he
          · simpa [hm] using he
        · obtain ⟨l', hl', rfl⟩ := hmem e he
          exact ⟨l', List.mem_cons_of_mem l hl', rfl⟩

theorem atr_nodup_tasks (u : UserId) (L : List LocaleId) (k : Key) (db : DB)
    (h : db.tasks.Nodup) : (add_translation_records u L k db).tasks.Nodup := by
  induction L generalizing db with
  | nil => exact h
  | cons l rest ih => rw [atr_cons]; exact ih _ (ts_nodup_tasks u db k l h)

/-! ### Lemmas about the growth relation -/

theorem Grow.rfl (u : UserId) (db : DB) : Grow u db db :=
  ⟨[], by simp⟩

theorem Grow.trans (u : UserId) (a b c : DB) (h1 : Grow u a b)
    (h2 : Grow u b c) : Grow u a c := by
  obtain ⟨n1, ht1, hs1, hm1⟩ := h1
  obtain ⟨n2, ht2, hs2, hm2⟩ := h2
  refine ⟨n1 ++ n2, ?_, ?_, ?_⟩
  · rw [ht2, ht1, List.append_assoc]
  · rw [hs2, hs1, List.map_append, List.append_assoc]
  · intro p hp
    rcases List.mem_append.1 hp with hp | hp
    · exact hm1 p hp
    · intro hpa
      exact hm2 p hp (ht1 ▸ List.mem_append.2 (Or.inl hpa))

theorem grow_ts (u : UserId) (db : DB) (k : Key) (l : LocaleId) :
    Grow u db (translation_step u db k l) := by
  by_cases h : (k, l) ∈ db.tasks
  · exact ⟨[], by simp [ts_tasks, ts_saved, h]⟩
  · exact ⟨[(k, l)], by simp [ts_tasks, ts_saved, h]⟩

theorem grow_gocS (u : UserId) (db : DB) (k : Key) :
    Grow u db (get_or_create_source db k).1 :=
  ⟨[], by simp [gocS_tasks, gocS_saved]⟩

theorem grow_atr (u : UserId) (L : List LocaleId) (k : Key) (db : DB) :
    Grow u db (add_translation_records u L k db) := by
  induction L generalizing db with
  | nil => exact Grow.rfl u db
  | cons l rest ih =>
      rw [atr_cons]
      exact Grow.trans u _ _ _ (grow_ts u db k l) (ih _)

/-! ### Lemmas about the depth-capped call -/

theorem norel_seen (u : UserId) (w : World) (L : List LocaleId) (k : Key)
    (st : CState) :
    (create_translations_norel u w L k st).seen_objects =
      if k ∈ st.seen_objects then st.seen_objects else k :: st.seen_objects := by
  unfold create_translations_norel
  split <;> simp_all

theorem norel_seen_mono (u : UserId) (w : World) (L : List LocaleId) (k : Key)
    (st : CState) (x : Key) (hx : x ∈ st.seen_objects) :
    x ∈ (create_translations_norel u w L k st).seen_objects := by
  rw [norel_seen]
  split
  · exact hx
  · exact List.mem_cons_of_mem k hx

theorem norel_sources_mem (u : UserId) (w : World) (L : List LocaleId) (k : Key)
    (st : CState) (x : Key) :
    x ∈ (create_translations_norel u w L k st).db.sources ↔
      x ∈ st.db.sources ∨ (x = k ∧ k ∉ st.seen_objects) := by
  unfold create_translations_norel
  split
  · rename_i h
    simp [h]
  · rename_i h
    simp [atr_sources, gocS_sources_mem, h]

theorem norel_tasks_mem (u : UserId) (w : World) (L : List LocaleId) (k : Key)
    (st : CState) (x : Key) (l : LocaleId) :
    (x, l) ∈ (create_translations_norel u w L k st).db.tasks ↔
      (x, l) ∈ st.db.tasks ∨ (x = k ∧ l ∈ L ∧ k ∉ st.seen_objects) := by
  unfold create_translations_norel
  split
  · rename_i h
    simp [h]
  · rename_i h
    rw [atr_tasks_mem, gocS_tasks]
    simp [h]

theorem norel_sources_sub (u : UserId) (w : World) (L : List LocaleId) (k : Key)
    (st : CState) (x : Key) (hx : x ∈ st.db.sources) :
    x ∈ (create_translations_norel u w L k st).db.sources :=
  (norel_sources_mem u w L k st x).2 (Or.inl hx)

theorem norel_tasks_sub (u : UserId) (w : World) (L : List LocaleId) (k : Key)
    (st : CState) (p : Key × LocaleId) (hp : p ∈ st.db.tasks) :
    p ∈ (create_translations_norel u w L k st).db.tasks :=
  (norel_tasks_mem u w L k st p.1 p.2).2 (Or.inl hp)

theorem norel_events_append (u : UserId) (w : World) (L : List LocaleId)
    (k : Key) (st : CState) :
    ∃ new, (create_translations_norel u w L k st).db.events =
        st.db.events ++ new ∧
      ∀ e ∈ new, e = Ev.source k ∨ ∃ l, l ∈ L ∧ e = Ev.task k l := by
  unfold create_translations_norel
  split
  · exact ⟨[], by simp⟩
  · obtain ⟨new, hev, hmem⟩ := atr_events u L k (get_or_create_source st.db k).1
    refine ⟨(if k ∈ st.db.sources then [] else [Ev.source k]) ++ new, ?_, ?_⟩
    · simp only [hev, gocS_events, List.append_assoc]
    · intro e he
      rcases List.mem_append.1 he with he | he
      · left
        by_cases hm : k ∈ st.db.sources
        · simp [hm] at he
        · simpa [hm] using he
      · right
        exact hmem e he

theorem norel_absorb (u : UserId) (w : World) (L : List LocaleId) (k : Key)
    (st : CState) (h1 : k ∈ st.db.sources)
    (h2 : ∀ l ∈ L, (k, l) ∈ st.db.tasks) :
    create_translations_norel u w L k st =
      ⟨if k ∈ st.seen_objects then st.seen_objects else k :: st.seen_objects,
        st.db⟩ := by
  unfold create_translations_norel
  split
  · rename_i h
    simp [h]
  · rename_i h
    simp [gocS_skip st.db k h1, atr_skip u L k st.db h2, h]

theorem norel_nodup_sources (u : UserId) (w : World) (L : List LocaleId)
    (k : Key) (st : CState) (h : st.db.sources.Nodup) :
    (create_translations_norel u w L k st).db.sources.Nodup := by
  unfold create_translations_norel
  split
  · exact h
  · rw [atr_sources]
    exact gocS_nodup st.db k h

theorem norel_nodup_tasks (u : UserId) (w : World) (L : List LocaleId)
    (k : Key) (st : CState) (h : st.db.tasks.Nodup) :
    (create_translations_norel u w L k st).db.tasks.Nodup := by
  unfold create_translations_norel
  split
  · exact h
  · exact atr_nodup_tasks u L k _ (by rwa [gocS_tasks])

theorem norel_present (u : UserId) (w : World) (L : List LocaleId) (k : Key)
    (st : CState) (h : k ∉ st.seen_objects) :
    k ∈ (create_translations_norel u w L k st).db.sources ∧
      ∀ l ∈ L, (k, l) ∈ (create_translations_norel u w L k st).db.tasks := by
  constructor
  · exact (norel_sources_mem u w L k st k).2 (Or.inr ⟨rfl, h⟩)
  · intro l hl
    exact (norel_tasks_mem u w L k st k l).2 (Or.inr ⟨rfl, hl, h⟩)

theorem norel_task_events_key (u : UserId) (w : World) (L : List LocaleId)
    (k r : Key) (l : LocaleId) (st : CState) (hr : r ∈ st.seen_objects) :
    Ev.task r l ∈ (create_translations_norel u w L k st).db.events ↔
      Ev.task r l ∈ st.db.events := by
  by_cases hk : k ∈ st.seen_objects
  · have hst : create_translations_norel u w L k st = st := by
      unfold create_translations_norel
      simp [hk]
    rw [hst]
  · obtain ⟨new, hev, hmem⟩ := norel_events_append u w L k st
    rw [hev, List.mem_append]
    have hkr : k ≠ r := fun he => hk (he ▸ hr)
    constructor
    · rintro (h | h)
      · exact h
      · rcases hmem _ h with he | ⟨l', _, he⟩
        · exact absurd he (by simp)
        · injection he with e1 e2
          exact absurd e1.symm hkr
    · exact Or.inl

/-! ### Lemmas about the related-objects loop -/

theorem aro_nil (u : UserId) (w : World) (L : List LocaleId) (st : CState) :
    add_related_objects u w L [] st = st := rfl

theorem aro_cons (u : UserId) (w : World) (L : List LocaleId) (rk : Key)
    (rest : List Key) (st : CState) :
    add_related_objects u w L (rk :: rest) st =
      add_related_objects u w L rest (create_translations_norel u w L rk st) :=
  rfl

theorem aro_seen_mono (u : UserId) (w : World) (L : List LocaleId)
    (rl : List Key) (st : CState) (x : Key) (hx : x ∈ st.seen_objects) :
    x ∈ (add_related_objects u w L rl st).seen_objects := by
  induction rl generalizing st with
  | nil => exact hx
  | cons rk rest ih =>
      rw [aro_cons]
      exact ih _ (norel_seen_mono u w L rk st x hx)

theorem aro_sources_mem (u : UserId) (w : World) (L : List LocaleId)
    (rl : List Key) (st : CState) (x : Key) :
    x ∈ (add_related_objects u w L rl st).db.sources ↔
      x ∈ st.db.sources ∨ (x ∈ rl ∧ x ∉ st.seen_objects) := by
  induction rl generalizing st with
  | nil => simp [aro_nil]
  | cons rk rest ih =>
      rw [aro_cons, ih, norel_sources_mem, norel_seen]
      by_cases hk : rk ∈ st.seen_objects
      · simp only [if_pos hk, List.mem_cons]
        aesop
      · simp only [if_neg hk, List.mem_cons]
        constructor
        · rintro ((hx | ⟨rfl, _⟩) | ⟨hx, hns⟩)
          · exact Or.inl hx
          · exact Or.inr ⟨Or.inl rfl, hk⟩
          · exact Or.inr ⟨Or.inr hx, (not_or.1 hns).2⟩
        · rintro (hx | ⟨(rfl | hx), hns⟩)
          · exact Or.inl (Or.inl hx)
          · exact Or.inl (Or.inr ⟨rfl, hns⟩)
          · by_cases hxr : x = rk
            · exact Or.inl (Or.inr ⟨hxr, hxr ▸ hns⟩)
            · exact Or.inr ⟨hx, not_or.2 ⟨hxr, hns⟩⟩

theorem aro_tasks_mem (u : UserId) (w : World) (L : List LocaleId)
    (rl : List Key) (st : CState) (x : Key) (l : LocaleId) :
    (x, l) ∈ (add_related_objects u w L rl st).db.tasks ↔
      (x, l) ∈ st.db.tasks ∨ (x ∈ rl ∧ l ∈ L ∧ x ∉ st.seen_objects) := by
  induction rl generalizing st with
  | nil => simp [aro_nil]
  | cons rk rest ih =>
      rw [aro_cons, ih, norel_tasks_mem, norel_seen]
      by_cases hk : rk ∈ st.seen_objects
      · simp only [if_pos hk, List.mem_cons]
        aesop
      · simp only [if_neg hk, List.mem_cons]
        constructor
        · rintro ((hx | ⟨rfl, hl, _⟩) | ⟨hx, hl, hns⟩)
          · exact Or.inl hx
          · exact Or.inr ⟨Or.inl rfl, hl, hk⟩
          · exact Or.inr ⟨Or.inr hx, hl, (not_or.1 hns).2⟩
        · rintro (hx | ⟨(rfl | hx), hl, hns⟩)
          · exact Or.inl (Or.inl hx)
          · exact Or.inl (Or.inr ⟨rfl, hl, hns⟩)
          · by_cases hxr : x = rk
            · exact Or.inl (Or.inr ⟨hxr, hl, hxr ▸ hns⟩)
            · exact Or.inr ⟨hx, hl, not_or.2 ⟨hxr, hns⟩⟩

theorem aro_sources_sub (u : UserId) (w : World) (L : List LocaleId)
    (rl : List Key) (st : CState) (x : Key) (hx : x ∈ st.db.sources) :
    x ∈ (add_related_objects u w L rl st).db.sources :=
  (aro_sources_mem u w L rl st x).2 (Or.inl hx)

theorem aro_tasks_sub (u : UserId) (w : World) (L : List LocaleId)
    (rl : List Key) (st : CState) (p : Key × LocaleId) (hp : p ∈ st.db.tasks) :
    p ∈ (add_related_objects u w L rl st).db.tasks :=
  (aro_tasks_mem u w L rl st p.1 p.2).2 (Or.inl hp)

theorem aro_task_events_key (u : UserId) (w : World) (L : List LocaleId)
    (rl : List Key) (r : Key) (l : LocaleId) (st : CState)
    (hr : r ∈ st.seen_objects) :
    Ev.task r l ∈ (add_related_objects u w L rl st).db.events ↔
      Ev.task r l ∈ st.db.events := by
  induction rl generalizing st with
  | nil => exact Iff.rfl
  | cons rk rest ih =>
      rw [aro_cons, ih _ (norel_seen_mono u w L rk st r hr),
        norel_task_events_key u w L rk r l st hr]

theorem aro_nodup_sources (u : UserId) (w : World) (L : List LocaleId)
    (rl : List Key) (st : CState) (h : st.db.sources.Nodup) :
    (add_related_objects u w L rl st).db.sources.Nodup := by
  induction rl generalizing st with
  | nil => exact h
  | cons rk rest ih =>
      rw [aro_cons]
      exact ih _ (norel_nodup_sources u w L rk st h)

theorem aro_nodup_tasks (u : UserId) (w : World) (L : List LocaleId)
    (rl : List Key) (st : CState) (h : st.db.tasks.Nodup) :
    (add_related_objects u w L rl st).db.tasks.Nodup := by
  induction rl generalizing st with
  | nil => exact h
  | cons rk rest ih =>
      rw [aro_cons]
      exact ih _ (norel_nodup_tasks u w L rk st h)

/-- Replaying the related-objects loop with the same starting seen set
against any database that already contains every record the first pass
ends with changes nothing in the database. -/
theorem aro_replay (u : UserId) (w : World) (L : List LocaleId) :
    ∀ (rl s : List Key) (db db2 : DB),
      (∀ x ∈ (add_related_objects u w L rl ⟨s, db⟩).db.sources,
        x ∈ db2.sources) →
      (∀ p ∈ (add_related_objects u w L rl ⟨s, db⟩).db.tasks, p ∈ db2.tasks) →
      add_related_objects u w L rl ⟨s, db2⟩ =
        ⟨(add_related_objects u w L rl ⟨s, db⟩).seen_objects, db2⟩ := by
  intro rl
  induction rl with
  | nil =>
      intro s db db2 _ _
      rfl
  | cons rk rest ih =>
      intro s db db2 hs ht
      have habs : create_translations_norel u w L rk ⟨s, db2⟩ =
          ⟨(create_translations_norel u w L rk ⟨s, db⟩).seen_objects, db2⟩ := by
        by_cases hrk : rk ∈ s
        · have h1 : create_translations_norel u w L rk ⟨s, db2⟩ = ⟨s, db2⟩ := by
            unfold create_translations_norel
            simp [hrk]
          rw [h1, norel_seen]
          simp [hrk]
        · obtain ⟨hsrc, htsk⟩ := norel_present u w L rk ⟨s, db⟩ hrk
          have h1 : rk ∈ db2.sources :=
            hs rk (aro_sources_sub u w L rest _ rk hsrc)
          have h2 : ∀ l ∈ L, (rk, l) ∈ db2.tasks := fun l hl =>
            ht (rk, l) (aro_tasks_sub u w L rest _ (rk, l) (htsk l hl))
          rw [norel_absorb u w L rk ⟨s, db2⟩ h1 h2, norel_seen]
      rw [aro_cons, aro_cons, habs]
      exact ih (create_translations_norel u w L rk ⟨s, db⟩).seen_objects
        (create_translations_norel u w L rk ⟨s, db⟩).db db2 hs ht

theorem grow_norel (u : UserId) (w : World) (L : List LocaleId) (k : Key)
    (st : CState) : Grow u st.db (create_translations_norel u w L k st).db := by
  unfold create_translations_norel
  split
  · exact Grow.rfl u st.db
  · exact Grow.trans u _ _ _ (grow_gocS u st.db k) (grow_atr u L k _)

theorem grow_aro (u : UserId) (w : World) (L : List LocaleId) (rl : List Key)
    (st : CState) : Grow u st.db (add_related_objects u w L rl st).db := by
  induction rl generalizing st with
  | nil => exact Grow.rfl u st.db
  | cons rk rest ih =>
      rw [aro_cons]
      exact Grow.trans u _ _ _ (grow_norel u w L rk st) (ih _)

/-! ### Lemmas about `create_translations` itself -/

theorem create_of_mem_seen (u : UserId) (w : World) (L : List LocaleId)
    (k : Key) (b : Bool) (st : CState) (h : k ∈ st.seen_objects) :
    create_translations u w L k b st = st := by
  unfold create_translations
  simp [h]

theorem create_false_eq_norel (u : UserId) (w : World) (L : List LocaleId)
    (k : Key) (st : CState) :
    create_translations u w L k false st =
      create_translations_norel u w L k st := by
  unfold create_translations create_translations_norel
  split <;> rfl

theorem create_true_not_seen (u : UserId) (w : World) (L : List LocaleId)
    (k : Key) (st : CState) (h : k ∉ st.seen_objects) :
    create_translations u w L k true st =
      ⟨(add_related_objects u w L (w.related k)
          ⟨k :: st.seen_objects, (get_or_create_source st.db k).1⟩).seen_objects,
        add_translation_records u L k
          (add_related_objects u w L (w.related k)
            ⟨k :: st.seen_objects, (get_or_create_source st.db k).1⟩).db⟩ := by
  unfold create_translations
  simp [h]

theorem grow_create (u : UserId) (w : World) (L : List LocaleId) (k : Key)
    (b : Bool) (st : CState) :
    Grow u st.db (create_translations u w L k b st).db := by
  by_cases h : k ∈ st.seen_objects
  · rw [create_of_mem_seen u w L k b st h]
    exact Grow.rfl u st.db
  · cases b with
    | false =>
        rw [create_false_eq_norel]
        exact grow_norel u w L k st
    | true =>
        rw [create_true_not_seen u w L k st h]
        exact Grow.trans u _ _ _ (grow_gocS u st.db k)
          (Grow.trans u _ _ _
            (grow_aro u w L (w.related k)
              ⟨k :: st.seen_objects, (get_or_create_source st.db k).1⟩)
            (grow_atr u L k _))

theorem norel_sources_eq (u : UserId) (w : World) (L : List LocaleId) (k : Key)
    (st : CState) :
    (create_translations_norel u w L k st).db.sources =
      if k ∈ st.seen_objects then st.db.sources
      else ((get_or_create_source st.db k).1).sources := by
  unfold create_translations_norel
  split <;> simp_all [atr_sources]

/-! ### Facts about one whole run from a fresh state -/

theorem run_from_empty_nodup_sources (u : UserId) (w : World)
    (L : List LocaleId) (r : Key) :
    (create_translations u w L r true ⟨[], emptyDB⟩).db.sources.Nodup := by
  rw [create_true_not_seen u w L r ⟨[], emptyDB⟩ (List.not_mem_nil r)]
  simp only [atr_sources]
  exact aro_nodup_sources u w L (w.related r) _
    (gocS_nodup emptyDB r (by simp [emptyDB]))

theorem run_from_empty_nodup_tasks (u : UserId) (w : World) (L : List LocaleId)
    (r : Key) :
    (create_translations u w L r true ⟨[], emptyDB⟩).db.tasks.Nodup := by
  rw [create_true_not_seen u w L r ⟨[], emptyDB⟩ (List.not_mem_nil r)]
  refine atr_nodup_tasks u L r _ (aro_nodup_tasks u w L (w.related r) _ ?_)
  show ((get_or_create_source emptyDB r).1).tasks.Nodup
  rw [gocS_tasks]
  simp [emptyDB]

theorem run_from_empty_tasks_mem (u : UserId) (w : World) (L : List LocaleId)
    (r : Key) (l : LocaleId) :
    (r, l) ∈ (create_translations u w L r true ⟨[], emptyDB⟩).db.tasks ↔
      l ∈ L := by
  rw [create_true_not_seen u w L r ⟨[], emptyDB⟩ (List.not_mem_nil r)]
  simp [atr_tasks_mem, aro_tasks_mem, gocS_tasks, emptyDB]

/-- Submitting an object whose only related object is `b` (with `b ≠ a`)
creates exactly the sources `[a, b]`, in that order; the related object's own
dependency list is never consulted. -/
theorem run_single_related (u : UserId) (w : World) (L : List LocaleId)
    (a b : Key) (hab : a ≠ b) (hra : w.related a = [b]) :
    (create_translations u w L a true ⟨[], emptyDB⟩).db.sources = [a, b] := by
  rw [create_true_not_seen u w L a ⟨[], emptyDB⟩ (List.not_mem_nil a)]
  simp [atr_sources, hra, aro_cons, aro_nil, norel_sources_eq, gocS_sources_eq,
    emptyDB, Ne.symm hab]

/-! ### The claims -/

/-- C1: on a cyclic dependency graph (A's related object is B and B's related
object is A, with A ≠ B), `create_translations` on A terminates — it is a
total function here — and the run creates exactly one Translation Source for
A and one for B: the source list is exactly `[a, b]`. -/
theorem claim_C1 (u : UserId) (w : World) (L : List LocaleId) (a b : Key)
    (hab : a ≠ b) (hra : w.related a = [b]) (hrb : w.related b = [a]) :
    (create_translations u w L a true ⟨[], emptyDB⟩).db.sources = [a, b] :=
  run_single_related u w L a b hab hra

/-- Witness for C1 on the concrete two-cycle 0 ↔ 1. -/
theorem claim_C1_witness :
    ((0 : Key) ≠ 1 ∧ wCyc.related 0 = [1] ∧ wCyc.related 1 = [0]) ∧
      (create_translations 9 wCyc [7] 0 true ⟨[], emptyDB⟩).db.sources =
        [0, 1] :=
  ⟨⟨by decide, rfl, rfl⟩, claim_C1 9 wCyc [7] 0 1 (by decide) rfl rfl⟩

/-- C2: on a chain A → B → C (distinct keys), submitting A expands related
objects only one level: sources are created exactly for A and B, and no
source is created for C. -/
theorem claim_C2 (u : UserId) (w : World) (L : List LocaleId) (a b c : Key)
    (hab : a ≠ b) (hbc : b ≠ c) (hac : a ≠ c)
    (hra : w.related a = [b]) (hrb : w.related b = [c]) :
    (create_translations u w L a true ⟨[], emptyDB⟩).db.sources = [a, b] ∧
      c ∉ (create_translations u w L a true ⟨[], emptyDB⟩).db.sources := by
  have h := run_single_related u w L a b hab hra
  refine ⟨h, ?_⟩
  rw [h]
  simp [Ne.symm hac, Ne.symm hbc]

/-- Witness for C2 on the concrete chain 0 → 1 → 2. -/
theorem claim_C2_witness :
    ((0 : Key) ≠ 1 ∧ (1 : Key) ≠ 2 ∧ (0 : Key) ≠ 2 ∧
        wChain.related 0 = [1] ∧ wChain.related 1 = [2]) ∧
      ((create_translations 9 wChain [7] 0 true ⟨[], emptyDB⟩).db.sources =
          [0, 1] ∧
        (2 : Key) ∉
          (create_translations 9 wChain [7] 0 true ⟨[], emptyDB⟩).db.sources) :=
  ⟨⟨by decide, by decide, by decide, rfl, rfl⟩,
    claim_C2 9 wChain [7] 0 1 2 (by decide) (by decide) (by decide) rfl rfl⟩

/-- C3: across any `create_translations` call, the task list grows by a batch
of (source, locale) pairs none of which existed before, and the
`save_target` calls performed are exactly that batch, tagged with the
submitting user — so initialization runs exactly when a Translation was newly
created, never for a pre-existing one. -/
theorem claim_C3 (u : UserId) (w : World) (L : List LocaleId) (k : Key)
    (b : Bool) (st : CState) :
    ∃ new, (create_translations u w L k b st).db.tasks = st.db.tasks ++ new ∧
      (create_translations u w L k b st).db.saved_targets =
        st.db.saved_targets ++ new.map (fun p => (p.1, p.2, u)) ∧
      ∀ p ∈ new, p ∉ st.db.tasks :=
  grow_create u w L k b st

/-- C4: a fresh submission run never duplicates a Source or a Task, and the
root key gets a task exactly for the locales of the target set. -/
theorem claim_C4 (u : UserId) (w : World) (L : List LocaleId) (r : Key) :
    (create_translations u w L r true ⟨[], emptyDB⟩).db.sources.Nodup ∧
      (create_translations u w L r true ⟨[], emptyDB⟩).db.tasks.Nodup ∧
      ∀ l, ((r, l) ∈ (create_translations u w L r true ⟨[], emptyDB⟩).db.tasks
        ↔ l ∈ L) :=
  ⟨run_from_empty_nodup_sources u w L r, run_from_empty_nodup_tasks u w L r,
    fun l => run_from_empty_tasks_mem u w L r l⟩

/-- Replaying a whole submission run with a fresh seen set against the
database the first run produced changes nothing. -/
theorem create_replay (u : UserId) (w : World) (L : List LocaleId) (r : Key) :
    (create_translations u w L r true
        ⟨[], (create_translations u w L r true ⟨[], emptyDB⟩).db⟩).db =
      (create_translations u w L r true ⟨[], emptyDB⟩).db := by
  have h0 : (r : Key) ∉ ([] : List Key) := List.not_mem_nil r
  have e1 : create_translations u w L r true ⟨[], emptyDB⟩ =
      ⟨(add_related_objects u w L (w.related r)
          ⟨[r], (get_or_create_source emptyDB r).1⟩).seen_objects,
        add_translation_records u L r
          (add_related_objects u w L (w.related r)
            ⟨[r], (get_or_create_source emptyDB r).1⟩).db⟩ :=
    create_true_not_seen u w L r ⟨[], emptyDB⟩ h0
  rw [e1]
  show (create_translations u w L r true
      ⟨[], add_translation_records u L r
        (add_related_objects u w L (w.related r)
          ⟨[r], (get_or_create_source emptyDB r).1⟩).db⟩).db =
    add_translation_records u L r
      (add_related_objects u w L (w.related r)
        ⟨[r], (get_or_create_source emptyDB r).1⟩).db
  have hr1 : r ∈ (add_translation_records u L r
      (add_related_objects u w L (w.related r)
        ⟨[r], (get_or_create_source emptyDB r).1⟩).db).sources := by
    rw [atr_sources]
    exact aro_sources_sub u w L (w.related r) _ r (gocS_self emptyDB r)
  have e2 := create_true_not_seen u w L r
    ⟨[], add_translation_records u L r
      (add_related_objects u w L (w.related r)
        ⟨[r], (get_or_create_source emptyDB r).1⟩).db⟩ h0
  rw [e2]
  have e3 : (get_or_create_source
      (add_translation_records u L r
        (add_related_objects u w L (w.related r)
          ⟨[r], (get_or_create_source emptyDB r).1⟩).db) r).1 =
      add_translation_records u L r
        (add_related_objects u w L (w.related r)
          ⟨[r], (get_or_create_source emptyDB r).1⟩).db :=
    gocS_skip _ r hr1
  have e4 : add_related_objects u w L (w.related r)
      ⟨[r], (get_or_create_source
        (add_translation_records u L r
          (add_related_objects u w L (w.related r)
            ⟨[r], (get_or_create_source emptyDB r).1⟩).db) r).1⟩ =
      ⟨(add_related_objects u w L (w.related r)
          ⟨[r], (get_or_create_source emptyDB r).1⟩).seen_objects,
        add_translation_records u L r
          (add_related_objects u w L (w.related r)
            ⟨[r], (get_or_create_source emptyDB r).1⟩).db⟩ := by
    rw [e3]
    apply aro_replay u w L (w.related r) [r] (get_or_create_source emptyDB r).1
    · intro x hx
      rw [atr_sources]
      exact hx
    · intro p hp
      exact atr_tasks_sub u L r _ p hp
  show (add_translation_records u L r
      (add_related_objects u w L (w.related r)
        ⟨[r], (get_or_create_source
          (add_translation_records u L r
            (add_related_objects u w L (w.related r)
              ⟨[r], (get_or_create_source emptyDB r).1⟩).db) r).1⟩).db) =
    add_translation_records u L r
      (add_related_objects u w L (w.related r)
        ⟨[r], (get_or_create_source emptyDB r).1⟩).db
  rw [e4]
  show add_translation_records u L r
      (add_translation_records u L r
        (add_related_objects u w L (w.related r)
          ⟨[r], (get_or_create_source emptyDB r).1⟩).db) =
    add_translation_records u L r
      (add_related_objects u w L (w.related r)
        ⟨[r], (get_or_create_source emptyDB r).1⟩).db
  exact atr_skip u L r _ fun l hl => atr_mem_self u L r _ l hl

/-- C5: running the submission twice (two separate runs, each with a fresh
seen set) yields exactly one Source per unique object and exactly one Task
per (object, locale) pair — the source and task lists have no duplicates —
and the second run creates zero new records: its database equals the first
run's. -/
theorem claim_C5 (u : UserId) (w : World) (L : List LocaleId) (r : Key) :
    (create_translations u w L r true
        ⟨[], (create_translations u w L r true ⟨[], emptyDB⟩).db⟩).db =
      (create_translations u w L r true ⟨[], emptyDB⟩).db ∧
    (create_translations u w L r true ⟨[], emptyDB⟩).db.sources.Nodup ∧
    (create_translations u w L r true ⟨[], emptyDB⟩).db.tasks.Nodup :=
  ⟨create_replay u w L r, run_from_empty_nodup_sources u w L r,
    run_from_empty_nodup_tasks u w L r⟩

/-- C6: in a fresh run with related-object expansion, every creation event
for the related objects happens before any Translation task creation for the
current object: the event trace splits into a prefix containing no task
event for the root and a tail consisting only of the root's task events. -/
theorem claim_C6 (u : UserId) (w : World) (L : List LocaleId) (r : Key) :
    ∃ pre tail,
      (create_translations u w L r true ⟨[], emptyDB⟩).db.events =
        pre ++ tail ∧
      (∀ e ∈ tail, ∃ l, l ∈ L ∧ e = Ev.task r l) ∧
      ∀ l, Ev.task r l ∉ pre := by
  have h0 : (r : Key) ∉ ([] : List Key) := List.not_mem_nil r
  rw [create_true_not_seen u w L r ⟨[], emptyDB⟩ h0]
  obtain ⟨new, hev, hmem⟩ := atr_events u L r
    (add_related_objects u w L (w.related r)
      ⟨[r], (get_or_create_source emptyDB r).1⟩).db
  refine ⟨_, new, hev, hmem, ?_⟩
  intro l hl
  rw [aro_task_events_key u w L (w.related r) r l
    ⟨[r], (get_or_create_source emptyDB r).1⟩ (by simp)] at hl
  rw [gocS_events] at hl
  simp [emptyDB] at hl

/-- Counterexample to C7 as stated: the resolver does NOT refuse a target
locale equal to the object's own locale. Object 0 lives in locale 5, the
target set is exactly {5}, and the run creates the task (0, 5). -/
theorem claim_C7_counterexample :
    wFlat.localeOf 0 = 5 ∧
      (create_translations 9 wFlat [5] 0 true ⟨[], emptyDB⟩).db.tasks =
        [(0, 5)] := by
  constructor <;> rfl

/-- C7 (amended): `create_translations` performs no own-locale check — for
any target set containing the object's own locale it creates a Translation
task for that locale; the own locale is excluded only by the form layer,
whose locale choices never contain the object's own locale. -/
theorem claim_C7 (u : UserId) (w : World) (L : List LocaleId) (k : Key)
    (all_locales : List LocaleId) (h : w.localeOf k ∈ L) :
    (k, w.localeOf k) ∈
        (create_translations u w L k true ⟨[], emptyDB⟩).db.tasks ∧
      w.localeOf k ∉ form_locale_choices all_locales (w.localeOf k) :=
  ⟨(run_from_empty_tasks_mem u w L k (w.localeOf k)).2 h,
    by simp [form_locale_choices]⟩

/-- Witness for the amended C7 at object 0 (own locale 5) with target set
{5} and form choices drawn from {3, 5}. -/
theorem claim_C7_witness :
    wFlat.localeOf 0 ∈ [5] ∧
      ((0, wFlat.localeOf 0) ∈
          (create_translations 9 wFlat [5] 0 true ⟨[], emptyDB⟩).db.tasks ∧
        wFlat.localeOf 0 ∉ form_locale_choices [3, 5] (wFlat.localeOf 0)) :=
  ⟨by decide, claim_C7 9 wFlat [5] 0 [3, 5] (by decide)⟩

/-- C9: a call on an object puts its key into the seen set (shown for the
`include_related_objects=False` form in which related objects are reached),
and any later call in the same run for a key already in the seen set — with
either flag — returns the state unchanged, so its related objects are never
expanded. -/
theorem claim_C9 (u : UserId) (w : World) (L : List LocaleId) (k : Key)
    (b : Bool) (st : CState) :
    k ∈ (create_translations u w L k false st).seen_objects ∧
      (k ∈ st.seen_objects → create_translations u w L k b st = st) := by
  constructor
  · rw [create_false_eq_norel, norel_seen]
    split
    · assumption
    · exact List.mem_cons_self k st.seen_objects
  · exact create_of_mem_seen u w L k b st

/-- Witness for C9: after object 0 is in the seen set, a call with
`include_related_objects=True` is a no-op. -/
theorem claim_C9_witness :
    (0 : Key) ∈
        (create_translations 9 wCyc [7] 0 false ⟨[], emptyDB⟩).seen_objects ∧
      create_translations 9 wCyc [7] 0 true ⟨[0], emptyDB⟩ =
        ⟨[0], emptyDB⟩ :=
  ⟨(claim_C9 9 wCyc [7] 0 true ⟨[], emptyDB⟩).1,
    (claim_C9 9 wCyc [7] 0 true ⟨[0], emptyDB⟩).2 (by decide)⟩

/-- C10: with an empty target-locale collection the run still creates the
Translation Source for the object and each of its one-hop related objects,
creates zero Translation tasks and zero `save_target` calls, and completes
without error. -/
theorem claim_C10 (u : UserId) (w : World) (r : Key) :
    (create_translations u w [] r true ⟨[], emptyDB⟩).db.tasks = [] ∧
      (create_translations u w [] r true ⟨[], emptyDB⟩).db.saved_targets =
        [] ∧
      ∀ k, (k ∈ (create_translations u w [] r true ⟨[], emptyDB⟩).db.sources ↔
        (k = r ∨ k ∈ w.related r)) := by
  have h0 : (r : Key) ∉ ([] : List Key) := List.not_mem_nil r
  have e1 := create_true_not_seen u w [] r ⟨[], emptyDB⟩ h0
  have htasks : (create_translations u w [] r true ⟨[], emptyDB⟩).db.tasks =
      [] := by
    rw [e1, atr_nil, List.eq_nil_iff_forall_not_mem]
    intro p hp
    have h := (aro_tasks_mem u w [] (w.related r)
      ⟨[r], (get_or_create_source emptyDB r).1⟩ p.1 p.2).1 hp
    rcases h with h | ⟨_, h, _⟩
    · rw [gocS_tasks] at h
      simp [emptyDB] at h
    · simp at h
  refine ⟨htasks, ?_, ?_⟩
  · obtain ⟨new, ht, hs, _⟩ := grow_create u w [] r true ⟨[], emptyDB⟩
    have hnew : new = [] := by
      rw [htasks] at ht
      have : emptyDB.tasks = [] := rfl
      rw [this] at ht
      simpa using ht.symm
    rw [hs, hnew]
    rfl
  · intro k
    rw [e1, atr_nil]
    rw [aro_sources_mem u w [] (w.related r)
      ⟨[r], (get_or_create_source emptyDB r).1⟩ k]
    rw [gocS_sources_eq]
    by_cases hkr : k = r <;> simp [emptyDB, hkr]

/-! ### The no-failure refinement and the transaction wrapper -/

theorem gocSE_ok (f : FaultSpec) (db : DB) (k : Key)
    (hf : ∀ k, f.failSource k = false) :
    get_or_create_sourceE f db k = Except.ok (get_or_create_source db k) := by
  simp [get_or_create_sourceE, hf k]

theorem tsE_ok (f : FaultSpec) (u : UserId) (db : DB) (k : Key) (l : LocaleId)
    (hf : ∀ k l, f.failTask k l = false) :
    translation_stepE f u db k l = Except.ok (translation_step u db k l) := by
  simp [translation_stepE, hf k l]

theorem atrE_ok (f : FaultSpec) (u : UserId)
    (hf : ∀ k l, f.failTask k l = false) (L : List LocaleId) (k : Key)
    (db : DB) :
    add_translation_recordsE f u L k db =
      Except.ok (add_translation_records u L k db) := by
  induction L generalizing db with
  | nil => rfl
  | cons l rest ih =>
      show (do
          let db1 ← translation_stepE f u db k l
          add_translation_recordsE f u rest k db1) = _
      rw [tsE_ok f u db k l hf, atr_cons]
      show add_translation_recordsE f u rest k (translation_step u db k l) = _
      exact ih _

theorem norelE_ok (f : FaultSpec) (u : UserId) (w : World) (L : List LocaleId)
    (hf1 : ∀ k, f.failSource k = false) (hf2 : ∀ k l, f.failTask k l = false)
    (k : Key) (st : CState) :
    create_translations_norelE f u w L k st =
      Except.ok (create_translations_norel u w L k st) := by
  by_cases h : k ∈ st.seen_objects
  · unfold create_translations_norelE create_translations_norel
    simp [h]
  · unfold create_translations_norelE create_translations_norel
    rw [if_neg h, if_neg h]
    rw [gocSE_ok f st.db k hf1]
    show (do
        let db2 ← add_translation_recordsE f u L k
          (get_or_create_source st.db k).1
        Except.ok (⟨k :: st.seen_objects, db2⟩ : CState)) = _
    rw [atrE_ok f u hf2 L k _]
    rfl

theorem aroE_ok (f : FaultSpec) (u : UserId) (w : World) (L : List LocaleId)
    (hf1 : ∀ k, f.failSource k = false) (hf2 : ∀ k l, f.failTask k l = false)
    (rl : List Key) (st : CState) :
    add_related_objectsE f u w L rl st =
      Except.ok (add_related_objects u w L rl st) := by
  induction rl generalizing st with
  | nil => rfl
  | cons rk rest ih =>
      show (do
          let st1 ← create_translations_norelE f u w L rk st
          add_related_objectsE f u w L rest st1) = _
      rw [norelE_ok f u w L hf1 hf2 rk st, aro_cons]
      show add_related_objectsE f u w L rest
          (create_translations_norel u w L rk st) = _
      exact ih _

theorem createE_ok (f : FaultSpec) (u : UserId) (w : World)
    (L : List LocaleId) (hf1 : ∀ k, f.failSource k = false)
    (hf2 : ∀ k l, f.failTask k l = false) (k : Key) (b : Bool) (st : CState) :
    create_translationsE f u w L k b st =
      Except.ok (create_translations u w L k b st) := by
  by_cases h : k ∈ st.seen_objects
  · rw [create_of_mem_seen u w L k b st h]
    unfold create_translationsE
    simp [h]
  · unfold create_translationsE
    rw [if_neg h]
    show (do
        let r ← get_or_create_sourceE f st.db k
        let st3 ←
          if b = true then
            add_related_objectsE f u w L (w.related k)
              ⟨k :: st.seen_objects, r.1⟩
          else pure (⟨k :: st.seen_objects, r.1⟩ : CState)
        let db4 ← add_translation_recordsE f u L k st3.db
        Except.ok (⟨st3.seen_objects, db4⟩ : CState)) = _
    rw [gocSE_ok f st.db k hf1]
    cases b with
    | false =>
        show (do
            let db4 ← add_translation_recordsE f u L k
              (get_or_create_source st.db k).1
            Except.ok
              (⟨(⟨k :: st.seen_objects, (get_or_create_source st.db k).1⟩ :
                  CState).seen_objects, db4⟩ : CState)) = _
        rw [atrE_ok f u hf2 L k _, create_false_eq_norel]
        unfold create_translations_norel
        rw [if_neg h]
        rfl
    | true =>
        show (do
            let st3 ← add_related_objectsE f u w L (w.related k)
              ⟨k :: st.seen_objects, (get_or_create_source st.db k).1⟩
            let db4 ← add_translation_recordsE f u L k st3.db
            Except.ok (⟨st3.seen_objects, db4⟩ : CState)) = _
        rw [aroE_ok f u w L hf1 hf2 (w.related k) _]
        show (do
            let db4 ← add_translation_recordsE f u L k
              (add_related_objects u w L (w.related k)
                ⟨k :: st.seen_objects, (get_or_create_source st.db k).1⟩).db
            Except.ok
              (⟨(add_related_objects u w L (w.related k)
                  ⟨k :: st.seen_objects,
                    (get_or_create_source st.db k).1⟩).seen_objects, db4⟩ :
                CState)) = _
        rw [atrE_ok f u hf2 L k _, create_true_not_seen u w L k st h]
        rfl

theorem walkE_ok (f : FaultSpec) (u : UserId) (w : World) (L : List LocaleId)
    (hf1 : ∀ k, f.failSource k = false) (hf2 : ∀ k l, f.failTask k l = false) :
    ∀ (ts : List PTree) (st : CState),
      walk_childrenE f u w L ts st =
        Except.ok (walk_children u w L ts st)
  | [], st => by
      unfold walk_childrenE walk_children
      rfl
  | PTree.node k cs :: rest, st => by
      unfold walk_childrenE walk_children
      rw [createE_ok f u w L hf1 hf2 k true st]
      show (if cs.length ≠ 0 then
          do
            let y ← walk_childrenE f u w L cs
              (create_translations u w L k true st)
            walk_childrenE f u w L rest y
        else do
          let y ← pure (create_translations u w L k true st)
          walk_childrenE f u w L rest y) =
        Except.ok (walk_children u w L rest
          (if cs.length ≠ 0 then
            walk_children u w L cs (create_translations u w L k true st)
          else create_translations u w L k true st))
      by_cases hcs : cs.length ≠ 0
      · rw [if_pos hcs, if_pos hcs]
        rw [walkE_ok f u w L hf1 hf2 cs _]
        show walk_childrenE f u w L rest
            (walk_children u w L cs (create_translations u w L k true st)) = _
        exact walkE_ok f u w L hf1 hf2 rest _
      · rw [if_neg hcs, if_neg hcs]
        show walk_childrenE f u w L rest
            (create_translations u w L k true st) = _
        exact walkE_ok f u w L hf1 hf2 rest _

theorem run_submitE_ok (f : FaultSpec) (u : UserId) (w : World)
    (L : List LocaleId) (root : Key) (sub : Option PTree)
    (inc : Bool) (db0 : DB) (hf1 : ∀ k, f.failSource k = false)
    (hf2 : ∀ k l, f.failTask k l = false) :
    run_submitE f u w L root sub inc db0 =
      Except.ok (run_submit u w L root sub inc db0) := by
  unfold run_submitE run_submit
  rw [createE_ok f u w L hf1 hf2 root true ⟨[], db0⟩]
  cases sub with
  | none => cases inc <;> rfl
  | some t =>
      cases inc with
      | false => rfl
      | true =>
          show walk_childrenE f u w L t.children
              (create_translations u w L root true ⟨[], db0⟩) = _
          exact walkE_ok f u w L hf1 hf2 t.children _

/-- C8: the whole submission run (root walk plus optional subtree walk)
executes inside one transaction: if any Source or Task creation fails, the
persisted database is exactly the pre-run database; if the run succeeds, the
persisted database is exactly the run's final database; and with no injected
failures the run succeeds and persists the pure run's result. -/
theorem claim_C8 (f : FaultSpec) (u : UserId) (w : World) (L : List LocaleId)
    (root : Key) (sub : Option PTree) (inc : Bool) (db0 : DB) :
    (run_submitE f u w L root sub inc db0 = Except.error () →
        submit_post f u w L root sub inc db0 = db0) ∧
    (∀ st, run_submitE f u w L root sub inc db0 = Except.ok st →
        submit_post f u w L root sub inc db0 = st.db) ∧
    ((∀ k, f.failSource k = false) → (∀ k l, f.failTask k l = false) →
        submit_post f u w L root sub inc db0 =
          (run_submit u w L root sub inc db0).db) := by
  refine ⟨?_, ?_, ?_⟩
  · intro h
    unfold submit_post
    rw [h]
  · intro st h
    unfold submit_post
    rw [h]
  · intro hf1 hf2
    unfold submit_post
    rw [run_submitE_ok f u w L root sub inc db0 hf1 hf2]

/-- Witness for C8: with no injected failures the wrapped run persists the
pure run's database. -/
theorem claim_C8_witness :
    submit_post noFaults 9 wChain [7] 0 (some (PTree.node 0 [])) true
        emptyDB =
      (run_submit 9 wChain [7] 0 (some (PTree.node 0 [])) true emptyDB).db :=
  (claim_C8 noFaults 9 wChain [7] 0 (some (PTree.node 0 [])) true
      emptyDB).2.2 (fun _ => rfl) (fun _ _ => rfl)

end SubmitTranslations
